import Mathlib

/-!
Shallow embedding of the odilia screen-reader cache core and its event
appliers, with proofs of the specification claims.

The sources embedded here are:
 - src/cache/src/lib.rs            (AccessiblePrimitive, CacheItem, Cache)
 - src/odilia/src/events/object.rs (text_changed, state_changed and
                                    text_caret_moved appliers)

Machine details of the embedding:
 - Rust `String` text is modelled as `List Char` (a sequence of Unicode
   scalar values), which is what the source iterates over via `.chars()`;
   where the source uses `.char_indices()` the model pairs each scalar
   with its UTF-8 BYTE offset (`charIndices`), because that is what the
   Rust iterator yields.
 - `usize` counts and indices are `Nat`.
 - The bus-backed `DashMap` cache is modelled as an association list with
   unique keys; insert overwrites in place, `get_mut`-style updates keep
   the key untouched.
 - `InterfaceSet`, `StateSet` (bitflag sets over fixed enumerations) are
   modelled as `Finset Nat`, with bitflag tags as numbers; `Role` as `Nat`.
 - The `Weak<Cache>` back-reference is an opaque token (`Nat`): no applier
   ever reads or writes it, which is all the claims need of it.
 - Fallible steps are `Option`; a `panic!`/`unwrap` failure is `none`.
-/

namespace Odilia

/-- The trailing segment of an accessible object path
`/org/a11y/atspi/accessible/XYZ` (atspi `AccessibleId`). -/
inductive AccessibleId where
  | root : AccessibleId
  | null : AccessibleId
  | number : Nat → AccessibleId
  | other : String → AccessibleId
deriving DecidableEq, Repr

/-- `AccessiblePrimitive` from src/cache/src/lib.rs: the cache key,
a pair of bus sender and object id. -/
structure AccessiblePrimitive where
  id : AccessibleId
  sender : String
deriving DecidableEq, Repr

/-- `CacheItem` from src/cache/src/lib.rs.  `interfaces` and `states` are
bitflag sets, modelled as finite sets of tags; `cache` is the weak
back-reference, modelled as an opaque token that no applier touches. -/
structure CacheItem where
  object : AccessiblePrimitive
  app : AccessiblePrimitive
  parent : AccessiblePrimitive
  index : Int
  children_num : Int
  interfaces : Finset Nat
  role : Nat
  states : Finset Nat
  text : List Char
  children : List AccessiblePrimitive
  cache : Nat
deriving DecidableEq

/-- The cache's `by_id` map (`DashMap<AccessiblePrimitive, CacheItem>`),
modelled as an association list whose operations keep keys unique. -/
abbrev Cache := List (AccessiblePrimitive × CacheItem)

/-- Key lookup in the association-list model of the map. -/
def mapLookup (c : Cache) (k : AccessiblePrimitive) : Option CacheItem :=
  match c with
  | [] => none
  | (k', v) :: rest => if k' = k then some v else mapLookup rest k

/-- `DashMap::insert`: overwrite the value when the key is present,
append a fresh entry otherwise. -/
def mapInsert (c : Cache) (k : AccessiblePrimitive) (v : CacheItem) : Cache :=
  match c with
  | [] => [(k, v)]
  | (k', v') :: rest =>
    if k' = k then (k, v) :: rest else (k', v') :: mapInsert rest k v

/-- `DashMap::remove`: drop every entry with the given key. -/
def mapRemove (c : Cache) (k : AccessiblePrimitive) : Cache :=
  match c with
  | [] => []
  | (k', v') :: rest =>
    if k' = k then mapRemove rest k else (k', v') :: mapRemove rest k

/-- `DashMap::get_mut` followed by an in-place mutation: the stored value at
the key is replaced by `f` of itself, and the key itself is untouched. -/
def mapUpdate (c : Cache) (k : AccessiblePrimitive) (f : CacheItem → CacheItem) : Cache :=
  match c with
  | [] => []
  | (k', v') :: rest =>
    if k' = k then (k', f v') :: rest else (k', v') :: mapUpdate rest k f

/-- `Cache::add`: insert keyed by the item's own `object` field. -/
def Cache.add (c : Cache) (cache_item : CacheItem) : Cache :=
  mapInsert c cache_item.object cache_item

/-- `Cache::remove`. -/
def Cache.remove (c : Cache) (id : AccessiblePrimitive) : Cache :=
  mapRemove c id

/-- `Cache::get`: `self.by_id.get(id).as_deref().cloned()` — a detached
clone of the stored item, or `none` when absent. -/
def Cache.get (c : Cache) (id : AccessiblePrimitive) : Option CacheItem :=
  mapLookup c id

/-- `Cache::get_all`: a parallel sequence of optional copies. -/
def Cache.get_all (c : Cache) (ids : List AccessiblePrimitive) : List (Option CacheItem) :=
  ids.map (mapLookup c)

/-- `Cache::add_all`: per-item semantics of `add`. -/
def Cache.add_all (c : Cache) (cache_items : List CacheItem) : Cache :=
  cache_items.foldl Cache.add c

/-- `Cache::remove_all`: per-item semantics of `remove`. -/
def Cache.remove_all (c : Cache) (ids : List AccessiblePrimitive) : Cache :=
  ids.foldl Cache.remove c

/-- `Cache::modify_item`: look the key up; absent yields `false` with the
cache untouched, present applies the mutator in place and yields `true`. -/
def Cache.modify_item (c : Cache) (id : AccessiblePrimitive)
    (modify : CacheItem → CacheItem) : Cache × Bool :=
  match mapLookup c id with
  | none => (c, false)
  | some _ => (mapUpdate c id modify, true)

/-- `copy_into_cache_item` from src/cache/src/lib.rs: a field-by-field copy
of a cache item. -/
def copy_into_cache_item (cache_item_with_handle : CacheItem) : CacheItem :=
  { object := cache_item_with_handle.object
    parent := cache_item_with_handle.parent
    states := cache_item_with_handle.states
    role := cache_item_with_handle.role
    app := cache_item_with_handle.app
    children_num := cache_item_with_handle.children_num
    interfaces := cache_item_with_handle.interfaces
    index := cache_item_with_handle.index
    text := cache_item_with_handle.text
    children := cache_item_with_handle.children
    cache := cache_item_with_handle.cache }

/-- The reader program of §8 "get followed by mutation of the returned
value": fetch a copy out of the cache with `Cache::get` (which clones the
entry out of the read guard) and mutate that local copy.  The cache state
is returned alongside the mutated local so the frame effect is statable. -/
def get_then_mutate (c : Cache) (id : AccessiblePrimitive)
    (mutate : CacheItem → CacheItem) : Cache × Option CacheItem :=
  match Cache.get c id with
  | none => (c, none)
  | some item => (c, some (mutate item))

/-! Text editor (mod `text_changed` of src/odilia/src/events/object.rs). -/

/-- `append_to_object`: collect the scalars of `original`, extend with the
scalars of `to_append`, reconstitute. -/
def append_to_object (original to_append : List Char) : List Char :=
  original ++ to_append

/-- `insert_at_index`: `Vec::splice(index.., to_splice)` — replace the tail
from `index` on by `to_splice`.  Every caller passes `index` within the
text, where the splice is `take index` followed by the new scalars. -/
def insert_at_index (original to_splice : List Char) (index : Nat) : List Char :=
  original.take index ++ to_splice

/-- `insert_at_range`: `Vec::splice(start..stop, to_splice)` — replace the
scalars at indices `start ≤ i < stop` by `to_splice`.  Every caller passes
`start ≤ stop ≤ length`, where the splice is take/append/drop. -/
def insert_at_range (original to_splice : List Char) (start stop : Nat) : List Char :=
  original.take start ++ to_splice ++ original.drop stop

/-- `update_string_insert`: the mutator handed to `Cache::modify_item` on a
text insertion; dispatches on prepend / append / insert-and-append /
splice, in that order. -/
def update_string_insert (start_pos update_length : Nat) (updated_text : List Char)
    (cache_item : CacheItem) : CacheItem :=
  let char_num := cache_item.text.length
  let prepend : Bool := start_pos == 0
  let append : Bool := decide (start_pos ≥ char_num)
  let insert_and_append : Bool := decide (start_pos + update_length ≥ char_num)
  { cache_item with text :=
      (if prepend then append_to_object updated_text cache_item.text
       else if append then append_to_object cache_item.text updated_text
       else if insert_and_append then insert_at_index cache_item.text updated_text start_pos
       else insert_at_range cache_item.text updated_text start_pos
         (start_pos + update_length)) }

/-- `get_string_within_bounds`: keep the scalar when its first component
lies in the inclusive window
`start_pos ≤ position ≤ start_pos + update_length`.  Both call sites feed
it from `str::char_indices`, whose positions are UTF-8 BYTE offsets. -/
def get_string_within_bounds (start_pos update_length : Nat)
    (ic : Nat × Char) : Option Char :=
  let is_after_start : Bool := decide (ic.1 ≥ start_pos)
  let is_before_end : Bool := decide (ic.1 ≤ start_pos + update_length)
  if is_after_start && is_before_end then some ic.2 else none

/-- `get_string_without_bounds`: keep the scalar when its first component
lies strictly outside the inclusive window.  Fed from `str::char_indices`:
BYTE offsets. -/
def get_string_without_bounds (start_pos update_length : Nat)
    (ic : Nat × Char) : Option Char :=
  let is_before_start : Bool := decide (ic.1 < start_pos)
  let is_after_end : Bool := decide (ic.1 > start_pos + update_length)
  if is_before_start || is_after_end then some ic.2 else none

/-- `str::char_indices` starting from byte offset `b`: each scalar is
paired with its UTF-8 byte offset, NOT its scalar position — consecutive
offsets differ by the scalar's encoded byte width. -/
def charIndicesFrom (b : Nat) : List Char → List (Nat × Char)
  | [] => []
  | c :: cs => (b, c) :: charIndicesFrom (b + c.utf8Size) cs

/-- `str::char_indices`: byte-offset/scalar pairs from offset 0. -/
def charIndices (s : List Char) : List (Nat × Char) :=
  charIndicesFrom 0 s

/-- The anonymous deletion mutator of `insert_or_delete` (the
`remove_has_not_occured` branch): filter the scalars through
`get_string_without_bounds` over `char_indices` — so the window bounds are
compared against BYTE offsets. -/
def update_string_delete (start_pos update_length : Nat)
    (cache_item : CacheItem) : CacheItem :=
  { cache_item with text :=
      ((charIndices cache_item.text).filterMap
        (get_string_without_bounds start_pos update_length)) }

/-- `text_selection_from_cache` (local of `insert_or_delete`): the scalars
of the current text whose `char_indices` BYTE offset lies inside the
inclusive event window. -/
def text_selection_from_cache (current : List Char) (start_pos update_length : Nat) :
    List Char :=
  (charIndices current).filterMap (get_string_within_bounds start_pos update_length)

/-- Modelled from the spec's words, for comparison with the source: the
selection at Unicode-SCALAR indices `start_pos` through
`start_pos + update_length`, which is how claims C2/C3 read the window.
It agrees with the source's byte-offset window only on one-byte text. -/
def scalar_selection (current : List Char) (start_pos update_length : Nat) :
    List Char :=
  current.enum.filterMap (get_string_within_bounds start_pos update_length)

/-! Announcement path. -/

/-- `AriaLive` from src/common/src/types.rs (an untagged serde enum). -/
inductive AriaLive where
  | off : AriaLive
  | assertive : AriaLive
  | polite : AriaLive
  | otherLive : String → AriaLive
deriving DecidableEq, Repr

/-- ssip `Priority` (only the variants the appliers produce). -/
inductive Priority where
  | important : Priority
  | notification : Priority
  | message : Priority
  | text : Priority
deriving DecidableEq, Repr

/-- Attribute map of an accessible, `HashMap<String, String>`. -/
abbrev Attributes := List (String × String)

/-- `HashMap::get` over the attribute list. -/
def attrGet (attributes : Attributes) (key : String) : Option String :=
  match attributes with
  | [] => none
  | (k, v) :: rest => if k = key then some v else attrGet rest key

/-- `serde_plain::from_str::<AriaLive>`: `AriaLive` is `#[serde(untagged)]`
with unit variants, and a plain string never deserializes into a unit
variant, so every input lands in the trailing `Other(String)` variant. -/
def parse_live (s : String) : AriaLive :=
  AriaLive.otherLive s

/-- `serde_plain::from_str::<AriaAtomic>`: transparent wrapper over `bool`. -/
def parse_atomic (s : String) : Option Bool :=
  if s = "true" then some true
  else if s = "false" then some false
  else none

/-- `get_live_state`: absent attribute is a `NoAttributeError` (here
`none`); a present attribute goes through serde. -/
def get_live_state (attributes : Attributes) : Option AriaLive :=
  (attrGet attributes "live").map parse_live

/-- `get_atomic_state`: absent attribute or failed bool parse is an error. -/
def get_atomic_state (attributes : Attributes) : Option Bool :=
  (attrGet attributes "atomic").bind parse_atomic

/-- `live_to_priority`. -/
def live_to_priority (live_str : AriaLive) : Priority :=
  match live_str with
  | AriaLive.assertive => Priority.important
  | AriaLive.polite => Priority.notification
  | _ => Priority.message

/-- `speak_insertion`: reads `live` then `atomic`; either error aborts the
announcement (`none`).  With `atomic == true` the `cache_text` argument is
handed to the speaker, otherwise the event's own text. -/
def speak_insertion (attributes : Attributes) (event_text cache_text : List Char) :
    Option (Priority × List Char) :=
  match get_live_state attributes with
  | none => none
  | some live =>
    match get_atomic_state attributes with
    | none => none
    | some atomic =>
      let text_to_say := if atomic then cache_text else event_text
      some (live_to_priority live, text_to_say)

/-- `insert_or_delete`: the cache effect and the announcement of a
text-changed event.  The item is fetched (`get_or_create`: when the key is
absent the source hydrates over the bus, which is outside the model, so
the absent case is the untouched cache with no speech).  On insert the
announcement is computed FIRST, from `current_text` — the text before the
cache update.  Then the idempotence guard compares the inclusive-window
selection against the event text and applies `Cache::modify_item` with the
insert or delete mutator accordingly. -/
def insert_or_delete (c : Cache) (k : AccessiblePrimitive) (attributes : Attributes)
    (insert : Bool) (start_pos update_length : Nat) (updated_text : List Char) :
    Cache × Option (Priority × List Char) :=
  match Cache.get c k with
  | none => (c, none)
  | some cache_item =>
    let current_text := cache_item.text
    let speech := if insert
      then speak_insertion attributes updated_text current_text
      else none
    let sel := text_selection_from_cache current_text start_pos update_length
    let selection_matches_update : Bool := sel == updated_text
    let insert_has_not_occured : Bool := insert && !selection_matches_update
    let remove_has_not_occured : Bool := !insert && selection_matches_update
    let c' :=
      if insert_has_not_occured then
        (Cache.modify_item c k
          (update_string_insert start_pos update_length updated_text)).1
      else if remove_has_not_occured then
        (Cache.modify_item c k
          (update_string_delete start_pos update_length)).1
      else c
    (c', speech)

/-! State-set updater (mod `state_changed`). -/

/-- The `active == true` mutator of `update_state`: remove the flag. -/
def states_remove (state_changed : Nat) (cache_item : CacheItem) : CacheItem :=
  { cache_item with states := cache_item.states.erase state_changed }

/-- The `active == false` mutator of `update_state`: insert the flag. -/
def states_insert (state_changed : Nat) (cache_item : CacheItem) : CacheItem :=
  { cache_item with states := insert state_changed cache_item.states }

/-- `update_state`: removes the state when `active`, inserts it when not,
both through `Cache::modify_item`, and returns its boolean. -/
def update_state (c : Cache) (a11y : AccessiblePrimitive)
    (state_changed : Nat) (active : Bool) : Cache × Bool :=
  if active then Cache.modify_item c a11y (states_remove state_changed)
  else Cache.modify_item c a11y (states_insert state_changed)

/-! Caret announcement (mod `text_caret_moved`).  Rust's
`str::get(a..b)` slices by BYTE offsets and yields `None` off a UTF-8
boundary, so the model tracks the byte width of each scalar. -/

/-- Drop the scalars covering the first `n` bytes; `none` when `n` is not
a scalar boundary within the text. -/
def utf8DropBytes : List Char → Nat → Option (List Char)
  | s, 0 => some s
  | [], _ + 1 => none
  | c :: cs, n + 1 =>
    if c.utf8Size ≤ n + 1 then utf8DropBytes cs (n + 1 - c.utf8Size) else none

/-- Take the scalars covering the first `n` bytes; `none` when `n` is not
a scalar boundary within the text. -/
def utf8TakeBytes : List Char → Nat → Option (List Char)
  | _, 0 => some []
  | [], _ + 1 => none
  | c :: cs, n + 1 =>
    if c.utf8Size ≤ n + 1 then (utf8TakeBytes cs (n + 1 - c.utf8Size)).map (c :: ·)
    else none

/-- Rust `str::get(a..b)`: the slice between byte offsets `a` and `b`, or
`none` when the range is backwards, out of bounds, or off a boundary. -/
def str_get (s : List Char) (a b : Nat) : Option (List Char) :=
  if a ≤ b then (utf8DropBytes s a).bind (fun t => utf8TakeBytes t (b - a)) else none

/-- `new_position` from mod `text_caret_moved`: empty when the object
changed; the single sliced character when the positions are adjacent
(`none` models the `unwrap` panic on a failed byte slice); empty
otherwise.  The dead `first_position`/`last_position` lets of the source
bind unused conversions and are omitted. -/
def new_position (new_item old_item : CacheItem) (new_position old_position : Nat)
    (new_text : List Char) : Option (List Char) :=
  let new_id := new_item.object.id
  let old_id := old_item.object.id
  let new_pos := new_position
  let old_pos := old_position
  if new_id ≠ old_id then some []
  else if Nat.dist new_pos old_pos = 1 then str_get new_text new_pos (new_pos + 1)
  else some []

/-! Operation sequences over the cache, for the invariant claims. -/

/-- One cache operation of the §8 property-based invariant: the public
mutating surface of `Cache`. -/
inductive CacheOp where
  | add : CacheItem → CacheOp
  | add_all : List CacheItem → CacheOp
  | remove : AccessiblePrimitive → CacheOp
  | remove_all : List AccessiblePrimitive → CacheOp
  | modify : AccessiblePrimitive → (CacheItem → CacheItem) → CacheOp

/-- Interpret one operation on the cache. -/
def applyOp (c : Cache) : CacheOp → Cache
  | CacheOp.add item => Cache.add c item
  | CacheOp.add_all items => Cache.add_all c items
  | CacheOp.remove k => Cache.remove c k
  | CacheOp.remove_all ks => Cache.remove_all c ks
  | CacheOp.modify k f => (Cache.modify_item c k f).1

/-- Run a whole operation sequence from the empty cache. -/
def applyOps (ops : List CacheOp) : Cache :=
  ops.foldl applyOp []

/-- Invariant I1: the map holds at most one item per identity. -/
def uniqueKeys (c : Cache) : Prop :=
  (c.map Prod.fst).Nodup

/-- Invariant I2: every stored item's `object` equals its map key. -/
def keyMatchesObject (c : Cache) : Prop :=
  ∀ p ∈ c, (Prod.snd p).object = Prod.fst p

/-- A mutator passed to `modify_item` preserves the `object` field (all
appliers in the program do); the other operations place no condition. -/
def opPreservesObject : CacheOp → Prop
  | CacheOp.modify _ f => ∀ item, (f item).object = item.object
  | _ => True

/-- A mutator touches at most the `text` field of the item. -/
def onlyTextDiffers (f : CacheItem → CacheItem) : Prop :=
  ∀ item, (f item).object = item.object ∧ (f item).app = item.app ∧
    (f item).parent = item.parent ∧ (f item).index = item.index ∧
    (f item).children_num = item.children_num ∧
    (f item).interfaces = item.interfaces ∧ (f item).role = item.role ∧
    (f item).states = item.states ∧ (f item).children = item.children ∧
    (f item).cache = item.cache

/-- A mutator touches at most the `states` field of the item. -/
def onlyStatesDiffers (f : CacheItem → CacheItem) : Prop :=
  ∀ item, (f item).object = item.object ∧ (f item).app = item.app ∧
    (f item).parent = item.parent ∧ (f item).index = item.index ∧
    (f item).children_num = item.children_num ∧
    (f item).interfaces = item.interfaces ∧ (f item).role = item.role ∧
    (f item).text = item.text ∧ (f item).children = item.children ∧
    (f item).cache = item.cache

/-! Concrete fixtures: the §8 / repository-test paragraph item and a few
small items used to evaluate the theorems on closed inputs. -/

/-- The AT-SPI paragraph of §8 of the spec (also `A11Y_PARAGRAPH_STRING`
in the repository's own test module). -/
def a11yParagraphText : List Char :=
  String.toList
    "The AT-SPI (Assistive Technology Service Provider Interface) enables users of Linux to use their computer without sighted assistance."

/-- `A11Y_PARAGRAPH_ITEM` from the repository's test module, with the
bitflag tags numbered: interfaces Accessible 0, Collection 1, Component 2,
Hyperlink 3, Hypertext 4, Text 5; states Enabled 10, Opaque 11, Showing
12, Visible 13; role Paragraph 40. -/
def a11yParagraphItem : CacheItem :=
  { object := { id := AccessibleId.number 1, sender := ":1.2" }
    app := { id := AccessibleId.root, sender := ":1.2" }
    parent := { id := AccessibleId.number 1, sender := ":1.2" }
    index := 323
    children_num := 0
    interfaces := {0, 1, 2, 3, 4, 5}
    role := 40
    states := {10, 11, 12, 13}
    text := a11yParagraphText
    children := []
    cache := 0 }

/-- A small concrete key. -/
def keyA : AccessiblePrimitive :=
  { id := AccessibleId.number 7, sender := ":1.9" }

/-- Another concrete key, distinct from `keyA`. -/
def keyB : AccessiblePrimitive :=
  { id := AccessibleId.number 8, sender := ":1.9" }

/-- A small concrete cache item with text "ab", stored under `keyA`. -/
def itemA : CacheItem :=
  { object := keyA
    app := { id := AccessibleId.root, sender := ":1.9" }
    parent := { id := AccessibleId.null, sender := ":1.9" }
    index := 0
    children_num := 0
    interfaces := {5}
    role := 40
    states := {10}
    text := ['a', 'b']
    children := []
    cache := 0 }

/-- A one-entry cache holding `itemA` under `keyA`. -/
def cacheA : Cache :=
  [(keyA, itemA)]

/-- Attributes of a live region: `live=polite`, `atomic=true`. -/
def attrsAtomic : Attributes :=
  [("live", "polite"), ("atomic", "true")]

/-- A mutator that rewrites the `object` field to `keyB`: `modify_item`
accepts it, and it drives the stored item's `object` away from its key. -/
def objectRewriter (item : CacheItem) : CacheItem :=
  { item with object := keyB }

/-- Like `itemA` but with the text "éa", whose first scalar is two bytes
wide, so its `char_indices` byte offsets (0, 2) differ from its scalar
indices (0, 1). -/
def itemE : CacheItem :=
  { itemA with text := ['é', 'a'] }

/-- A one-entry cache holding `itemE` under `keyA`. -/
def cacheE : Cache :=
  [(keyA, itemE)]

/-! Lemmas about the association-list map. -/

theorem mapLookup_mapUpdate_self (c : Cache) (k : AccessiblePrimitive)
    (f : CacheItem → CacheItem) :
    mapLookup (mapUpdate c k f) k = (mapLookup c k).map f := by
  induction c with
  | nil => rfl
  | cons hd tl ih =>
    by_cases h : hd.1 = k
    · simp [mapUpdate, mapLookup, h]
    · simp [mapUpdate, mapLookup, h, ih]

theorem mapLookup_mapUpdate_ne (c : Cache) (k k' : AccessiblePrimitive)
    (f : CacheItem → CacheItem) (h : k' ≠ k) :
    mapLookup (mapUpdate c k f) k' = mapLookup c k' := by
  induction c with
  | nil => rfl
  | cons hd tl ih =>
    obtain ⟨k1, v1⟩ := hd
    by_cases hk : k1 = k
    · subst hk
      have hne : ¬ k1 = k' := fun he => h he.symm
      simp [mapUpdate, mapLookup, hne]
    · simp [mapUpdate, mapLookup, hk, ih]

theorem mapLookup_mapRemove_self (c : Cache) (k : AccessiblePrimitive) :
    mapLookup (mapRemove c k) k = none := by
  induction c with
  | nil => rfl
  | cons hd tl ih =>
    by_cases h : hd.1 = k <;> simp [mapRemove, mapLookup, h, ih]

theorem mem_keys_mapInsert (c : Cache) (k v a) :
    a ∈ (mapInsert c k v).map Prod.fst ↔ a ∈ c.map Prod.fst ∨ a = k := by
  induction c with
  | nil => simp [mapInsert]
  | cons hd tl ih =>
    by_cases h : hd.1 = k
    · subst h
      simp [mapInsert]
      tauto
    · simp [mapInsert, h, ih]
      tauto

theorem uniqueKeys_mapInsert (c : Cache) (k v) (h : uniqueKeys c) :
    uniqueKeys (mapInsert c k v) := by
  induction c with
  | nil => simp [mapInsert, uniqueKeys]
  | cons hd tl ih =>
    obtain ⟨k1, v1⟩ := hd
    obtain ⟨hhd, htl⟩ := List.nodup_cons.mp h
    by_cases hk : k1 = k
    · subst hk
      simp only [mapInsert, if_pos rfl]
      exact List.nodup_cons.mpr ⟨hhd, htl⟩
    · have hnot : k1 ∉ (mapInsert tl k v).map Prod.fst := by
        intro hmem
        rcases (mem_keys_mapInsert tl k v k1).mp hmem with hin | heq
        · exact hhd hin
        · exact hk heq
      simp only [mapInsert, hk, if_neg, not_false_iff]
      exact List.nodup_cons.mpr ⟨hnot, ih htl⟩

theorem mapRemove_sublist (c : Cache) (k : AccessiblePrimitive) :
    List.Sublist (mapRemove c k) c := by
  induction c with
  | nil => simp [mapRemove]
  | cons hd tl ih =>
    by_cases h : hd.1 = k
    · simp only [mapRemove, h, if_pos]
      exact ih.cons hd
    · simp only [mapRemove, h, if_neg, not_false_iff]
      exact ih.cons₂ hd

theorem uniqueKeys_mapRemove (c : Cache) (k) (h : uniqueKeys c) :
    uniqueKeys (mapRemove c k) :=
  List.Nodup.sublist (List.Sublist.map Prod.fst (mapRemove_sublist c k)) h

theorem keys_mapUpdate (c : Cache) (k f) :
    (mapUpdate c k f).map Prod.fst = c.map Prod.fst := by
  induction c with
  | nil => rfl
  | cons hd tl ih =>
    by_cases h : hd.1 = k <;> simp [mapUpdate, h, ih]

theorem uniqueKeys_mapUpdate (c : Cache) (k f) (h : uniqueKeys c) :
    uniqueKeys (mapUpdate c k f) := by
  unfold uniqueKeys
  rw [keys_mapUpdate]
  exact h

theorem keyMatchesObject_cons (k1 : AccessiblePrimitive) (v1 : CacheItem) (tl : Cache) :
    keyMatchesObject ((k1, v1) :: tl) ↔ v1.object = k1 ∧ keyMatchesObject tl := by
  simp [keyMatchesObject]

theorem keyMatchesObject_add (c : Cache) (item : CacheItem)
    (h : keyMatchesObject c) : keyMatchesObject (Cache.add c item) := by
  unfold Cache.add
  induction c with
  | nil =>
    simp [mapInsert, keyMatchesObject]
  | cons hd tl ih =>
    obtain ⟨k1, v1⟩ := hd
    obtain ⟨h1, h2⟩ := (keyMatchesObject_cons k1 v1 tl).mp h
    by_cases hk : k1 = item.object
    · subst hk
      simp only [mapInsert, if_pos]
      exact (keyMatchesObject_cons _ _ _).mpr ⟨rfl, h2⟩
    · simp only [mapInsert, hk, if_neg, not_false_iff]
      exact (keyMatchesObject_cons _ _ _).mpr ⟨h1, ih h2⟩

theorem keyMatchesObject_mapRemove (c : Cache) (k) (h : keyMatchesObject c) :
    keyMatchesObject (mapRemove c k) := by
  intro p hp
  exact h p ((mapRemove_sublist c k).subset hp)

theorem keyMatchesObject_mapUpdate (c : Cache) (k) (f : CacheItem → CacheItem)
    (hf : ∀ item, (f item).object = item.object)
    (h : keyMatchesObject c) : keyMatchesObject (mapUpdate c k f) := by
  induction c with
  | nil => simpa [mapUpdate] using h
  | cons hd tl ih =>
    obtain ⟨k1, v1⟩ := hd
    obtain ⟨h1, h2⟩ := (keyMatchesObject_cons k1 v1 tl).mp h
    by_cases hk : k1 = k
    · simp only [mapUpdate, hk, if_pos]
      exact (keyMatchesObject_cons _ _ _).mpr ⟨by rw [hf v1]; exact hk ▸ h1, h2⟩
    · simp only [mapUpdate, hk, if_neg, not_false_iff]
      exact (keyMatchesObject_cons _ _ _).mpr ⟨h1, ih h2⟩

theorem uniqueKeys_applyOp (c : Cache) (op : CacheOp) (h : uniqueKeys c) :
    uniqueKeys (applyOp c op) := by
  cases op with
  | add item => exact uniqueKeys_mapInsert c item.object item h
  | add_all items =>
    show uniqueKeys (items.foldl Cache.add c)
    induction items generalizing c with
    | nil => exact h
    | cons hd tl ih => exact ih _ (uniqueKeys_mapInsert c hd.object hd h)
  | remove k => exact uniqueKeys_mapRemove c k h
  | remove_all ks =>
    show uniqueKeys (ks.foldl Cache.remove c)
    induction ks generalizing c with
    | nil => exact h
    | cons hd tl ih => exact ih _ (uniqueKeys_mapRemove c hd h)
  | modify k f =>
    show uniqueKeys (Cache.modify_item c k f).1
    unfold Cache.modify_item
    cases mapLookup c k with
    | none => exact h
    | some item => exact uniqueKeys_mapUpdate c k f h

theorem keyMatchesObject_applyOp (c : Cache) (op : CacheOp)
    (hop : opPreservesObject op) (h : keyMatchesObject c) :
    keyMatchesObject (applyOp c op) := by
  cases op with
  | add item => exact keyMatchesObject_add c item h
  | add_all items =>
    show keyMatchesObject (items.foldl Cache.add c)
    induction items generalizing c with
    | nil => exact h
    | cons hd tl ih => exact ih _ (keyMatchesObject_add c hd h) trivial
  | remove k => exact keyMatchesObject_mapRemove c k h
  | remove_all ks =>
    show keyMatchesObject (ks.foldl Cache.remove c)
    induction ks generalizing c with
    | nil => exact h
    | cons hd tl ih => exact ih _ (keyMatchesObject_mapRemove c hd h) trivial
  | modify k f =>
    show keyMatchesObject (Cache.modify_item c k f).1
    unfold Cache.modify_item
    cases mapLookup c k with
    | none => exact h
    | some item => exact keyMatchesObject_mapUpdate c k f hop h

theorem filterMap_without_enumFrom (sp len : Nat) (l : List Char) :
    ∀ k : Nat, (List.enumFrom k l).filterMap (get_string_without_bounds sp len) =
      l.take (sp - k) ++ l.drop (sp + len + 1 - k) := by
  induction l with
  | nil => intro k; simp
  | cons c cs ih =>
    intro k
    by_cases h1 : k < sp
    · have ht : sp - k = (sp - (k + 1)) + 1 := by omega
      have hd : sp + len + 1 - k = (sp + len + 1 - (k + 1)) + 1 := by omega
      have hcond : get_string_without_bounds sp len (k, c) = some c := by
        simp [get_string_without_bounds, h1]
      simp only [List.enumFrom, List.filterMap_cons, hcond, ih (k + 1), ht, hd,
        List.take_succ_cons, List.drop_succ_cons, List.cons_append]
    · by_cases h2 : sp + len < k
      · have ht : sp - k = 0 := by omega
        have ht' : sp - (k + 1) = 0 := by omega
        have hd : sp + len + 1 - k = 0 := by omega
        have hd' : sp + len + 1 - (k + 1) = 0 := by omega
        have hcond : get_string_without_bounds sp len (k, c) = some c := by
          simp [get_string_without_bounds, h2]
        simp [List.enumFrom, List.filterMap_cons, hcond, ih (k + 1), ht, ht', hd, hd']
      · have ht : sp - k = 0 := by omega
        have ht' : sp - (k + 1) = 0 := by omega
        have hd : sp + len + 1 - k = (sp + len + 1 - (k + 1)) + 1 := by omega
        have hcond : get_string_without_bounds sp len (k, c) = none := by
          simp only [get_string_without_bounds, Bool.or_eq_true, decide_eq_true_eq,
            ite_eq_right_iff]
          omega
        simp only [List.enumFrom, List.filterMap_cons, hcond, ih (k + 1), ht, ht', hd,
          List.take_zero, List.nil_append, List.drop_succ_cons]

theorem text_without_bounds_take_drop (sp len : Nat) (l : List Char) :
    l.enum.filterMap (get_string_without_bounds sp len) =
      l.take sp ++ l.drop (sp + len + 1) := by
  have h := filterMap_without_enumFrom sp len l 0
  simpa using h

theorem filterMap_without_eq_filter (sp len : Nat) (l : List (Nat × Char)) :
    l.filterMap (get_string_without_bounds sp len) =
      (l.filter (fun ic => decide (ic.1 < sp ∨ sp + len < ic.1))).map Prod.snd := by
  induction l with
  | nil => rfl
  | cons hd tl ih =>
    by_cases h : hd.1 < sp ∨ sp + len < hd.1
    · have hcond : get_string_without_bounds sp len hd = some hd.2 := by
        rcases h with h | h <;> simp [get_string_without_bounds, h]
      simp [List.filterMap_cons, List.filter_cons, hcond, h, ih]
    · have hcond : get_string_without_bounds sp len hd = none := by
        simp only [get_string_without_bounds, Bool.or_eq_true, decide_eq_true_eq,
          ite_eq_right_iff]
        intro hor
        exact absurd hor h
      simp [List.filterMap_cons, List.filter_cons, hcond, h, ih]

theorem charIndicesFrom_ascii (l : List Char) (h : ∀ c ∈ l, c.utf8Size = 1) :
    ∀ b : Nat, charIndicesFrom b l = List.enumFrom b l := by
  induction l with
  | nil => intro b; rfl
  | cons c cs ih =>
    intro b
    have hc : c.utf8Size = 1 := h c (List.mem_cons_self c cs)
    have hcs : ∀ x ∈ cs, x.utf8Size = 1 := fun x hx => h x (List.mem_cons_of_mem c hx)
    simp [charIndicesFrom, List.enumFrom, hc, ih hcs (b + 1)]

theorem charIndices_ascii (l : List Char) (h : ∀ c ∈ l, c.utf8Size = 1) :
    charIndices l = l.enum :=
  charIndicesFrom_ascii l h 0

theorem modify_item_preserves_other_keys (c : Cache) (k k' : AccessiblePrimitive)
    (f : CacheItem → CacheItem) (h : k' ≠ k) :
    mapLookup (Cache.modify_item c k f).1 k' = mapLookup c k' := by
  unfold Cache.modify_item
  cases mapLookup c k with
  | none => rfl
  | some item => exact mapLookup_mapUpdate_ne c k k' f h

theorem applyOps_invariants (ops : List CacheOp) :
    ∀ c : Cache, uniqueKeys c →
      (uniqueKeys (ops.foldl applyOp c) ∧
        (keyMatchesObject c → (∀ op ∈ ops, opPreservesObject op) →
          keyMatchesObject (ops.foldl applyOp c))) := by
  induction ops with
  | nil => exact fun c hc => ⟨hc, fun hm _ => hm⟩
  | cons hd tl ih =>
    intro c hc
    obtain ⟨ih1, ih2⟩ := ih (applyOp c hd) (uniqueKeys_applyOp c hd hc)
    refine ⟨ih1, fun hm hops => ?_⟩
    exact ih2
      (keyMatchesObject_applyOp c hd (hops hd (List.mem_cons_self hd tl)) hm)
      (fun op hin => hops op (List.mem_cons_of_mem hd hin))

/-! Claim theorems. -/

/-- C1: for every current text, insert position `start_pos`, count
`update_length` and inserted text, the text applier replaces the item's
text by exactly one of: inserted ++ current when `start_pos = 0`
(prepend); current ++ inserted when `start_pos ≥ n` (append);
`current[0..start_pos]` ++ inserted when `start_pos + length ≥ n`
(insert-and-append, tail discarded); the splice
`current[0..start_pos]` ++ inserted ++ `current[start_pos+length..]`
otherwise — all indices Unicode-scalar indices. -/
theorem C1_insert_policy (start_pos update_length : Nat) (updated_text : List Char)
    (item : CacheItem) :
    (update_string_insert start_pos update_length updated_text item).text =
      (if start_pos = 0 then updated_text ++ item.text
       else if item.text.length ≤ start_pos then item.text ++ updated_text
       else if item.text.length ≤ start_pos + update_length then
         item.text.take start_pos ++ updated_text
       else item.text.take start_pos ++ updated_text ++
         item.text.drop (start_pos + update_length)) := by
  by_cases h0 : start_pos = 0 <;>
    by_cases h1 : item.text.length ≤ start_pos <;>
      by_cases h2 : item.text.length ≤ start_pos + update_length <;>
        simp [update_string_insert, append_to_object, insert_at_index,
          insert_at_range, h0, h1, h2]

/-- C2 (counterexample): the deletion window is compared against
`char_indices` BYTE offsets, not scalar indices — on the text "éa" with
`start_pos = 1`, `length = 0` the code deletes nothing (the byte offsets
are 0 and 2, neither inside the window [1, 1]), while the claim's
scalar-index reading removes the scalar at index 1, leaving "é". -/
theorem C2_counterexample_byte_offsets :
    (update_string_delete 1 0 itemE).text = ['é', 'a'] ∧
    (itemE.text.enum.filter
      (fun ic => decide (ic.1 < 1 ∨ 1 + 0 < ic.1))).map Prod.snd = ['é'] ∧
    (['é', 'a'] : List Char) ≠ ['é'] := by
  refine ⟨by decide, by decide, by decide⟩

/-- C2 (amended): the applied deletion keeps exactly the scalars whose
`char_indices` BYTE offset `b` satisfies `b < start_pos` or
`b > start_pos + length` (inclusive upper bound); on a text of one-byte
scalars — where byte offsets coincide with scalar indices — the claim's
original scalar-index reading holds, and `length + 1` scalars are removed
from a sufficiently long such text. -/
theorem C2_delete_policy (start_pos update_length : Nat) (item : CacheItem) :
    (update_string_delete start_pos update_length item).text =
      ((charIndices item.text).filter
        (fun ic => decide (ic.1 < start_pos ∨ start_pos + update_length < ic.1))).map
        Prod.snd ∧
    ((∀ c ∈ item.text, c.utf8Size = 1) →
      ((update_string_delete start_pos update_length item).text =
        (item.text.enum.filter
          (fun ic => decide (ic.1 < start_pos ∨ start_pos + update_length < ic.1))).map
          Prod.snd ∧
        (start_pos + update_length < item.text.length →
          (update_string_delete start_pos update_length item).text.length =
            item.text.length - (update_length + 1)))) := by
  constructor
  · exact filterMap_without_eq_filter start_pos update_length (charIndices item.text)
  · intro hascii
    have hce : charIndices item.text = item.text.enum := charIndices_ascii _ hascii
    constructor
    · show ((charIndices item.text).filterMap
          (get_string_without_bounds start_pos update_length)) =
          (item.text.enum.filter
            (fun ic => decide (ic.1 < start_pos ∨ start_pos + update_length < ic.1))).map
            Prod.snd
      rw [hce]
      exact filterMap_without_eq_filter start_pos update_length item.text.enum
    · intro h
      show ((charIndices item.text).filterMap
          (get_string_without_bounds start_pos update_length)).length = _
      rw [hce, text_without_bounds_take_drop]
      rw [List.length_append, List.length_take, List.length_drop]
      omega

/-- Closed witness for C2 at the two-scalar ASCII text "ab" with
`start_pos = 0`, `length = 0`: the scalar at index 0 is removed. -/
theorem C2_delete_policy_witness :
    ((update_string_delete 0 0 itemA).text =
      ((charIndices itemA.text).filter
        (fun ic => decide (ic.1 < 0 ∨ 0 + 0 < ic.1))).map Prod.snd) ∧
    ((update_string_delete 0 0 itemA).text =
      (itemA.text.enum.filter
        (fun ic => decide (ic.1 < 0 ∨ 0 + 0 < ic.1))).map Prod.snd) ∧
    (update_string_delete 0 0 itemA).text.length = itemA.text.length - (0 + 1) :=
  ⟨(C2_delete_policy 0 0 itemA).1,
    ((C2_delete_policy 0 0 itemA).2 (by decide)).1,
    ((C2_delete_policy 0 0 itemA).2 (by decide)).2 (by decide)⟩

/-- C3 (counterexample): the idempotence guard reads its selection at
`char_indices` BYTE offsets, not scalar indices — on cached text "éa"
with `start_pos = 1`, `length = 0` and event text "a", the claim's
scalar-index selection is "a", equal to the event text, so the claim says
the insert is skipped; but the code's byte-window selection is empty, so
it applies the insert and the cache changes. -/
theorem C3_counterexample_byte_offsets :
    scalar_selection itemE.text 1 0 = String.toList "a" ∧
    (insert_or_delete cacheE keyA [] true 1 0 (String.toList "a")).1 ≠ cacheE := by
  refine ⟨by decide, by decide⟩

/-- C3 (amended): with `sel` the scalars of the cached text whose
`char_indices` BYTE offset lies between `start_pos` and
`start_pos + length` inclusive (scalar indices only on one-byte text), an
insert is applied to the cache iff `sel` differs from the event text, and
a delete is applied iff `sel` equals the event text; a delete whose
selection does not match leaves the cache unchanged. -/
theorem C3_idempotence_guard (c : Cache) (k : AccessiblePrimitive)
    (attributes : Attributes) (start_pos update_length : Nat)
    (updated_text : List Char) (item : CacheItem)
    (h : Cache.get c k = some item) :
    (text_selection_from_cache item.text start_pos update_length = updated_text →
      (insert_or_delete c k attributes true start_pos update_length updated_text).1 = c) ∧
    (text_selection_from_cache item.text start_pos update_length ≠ updated_text →
      (insert_or_delete c k attributes true start_pos update_length updated_text).1 =
        (Cache.modify_item c k
          (update_string_insert start_pos update_length updated_text)).1) ∧
    (text_selection_from_cache item.text start_pos update_length = updated_text →
      (insert_or_delete c k attributes false start_pos update_length updated_text).1 =
        (Cache.modify_item c k (update_string_delete start_pos update_length)).1) ∧
    (text_selection_from_cache item.text start_pos update_length ≠ updated_text →
      (insert_or_delete c k attributes false start_pos update_length updated_text).1 = c) := by
  refine ⟨fun hsel => ?_, fun hsel => ?_, fun hsel => ?_, fun hsel => ?_⟩ <;>
    simp [insert_or_delete, h, hsel]

/-- Closed witness for C3 on the one-entry cache holding "ab": with the
event text equal to the selection the insert is skipped and the delete is
applied, and with a different event text the insert is applied and the
delete is skipped. -/
theorem C3_idempotence_guard_witness :
    ((insert_or_delete cacheA keyA [] true 0 1 (String.toList "ab")).1 = cacheA) ∧
    ((insert_or_delete cacheA keyA [] false 0 1 (String.toList "ab")).1 =
      (Cache.modify_item cacheA keyA (update_string_delete 0 1)).1) ∧
    ((insert_or_delete cacheA keyA [] true 0 1 (String.toList "xy")).1 =
      (Cache.modify_item cacheA keyA (update_string_insert 0 1 (String.toList "xy"))).1) ∧
    ((insert_or_delete cacheA keyA [] false 0 1 (String.toList "xy")).1 = cacheA) :=
  ⟨(C3_idempotence_guard cacheA keyA [] 0 1 (String.toList "ab") itemA (by decide)).1
      (by decide),
    (C3_idempotence_guard cacheA keyA [] 0 1 (String.toList "ab") itemA (by decide)).2.2.1
      (by decide),
    (C3_idempotence_guard cacheA keyA [] 0 1 (String.toList "xy") itemA (by decide)).2.1
      (by decide),
    (C3_idempotence_guard cacheA keyA [] 0 1 (String.toList "xy") itemA (by decide)).2.2.2
      (by decide)⟩

/-- C4: the state-set updater, under `modify_item`, removes the tag from
the item's states when `enabled` is true and inserts it when `enabled` is
false (the inverted polarity), and returns `modify_item`'s boolean, which
is false exactly when the item is absent from the cache. -/
theorem C4_update_state_polarity (c : Cache) (k : AccessiblePrimitive) (t : Nat) :
    (∀ item, mapLookup c k = some item →
      mapLookup (update_state c k t true).1 k =
        some { item with states := item.states.erase t } ∧
      mapLookup (update_state c k t false).1 k =
        some { item with states := insert t item.states }) ∧
    (∀ active : Bool, ((update_state c k t active).2 = false ↔ mapLookup c k = none)) := by
  constructor
  · intro item hitem
    constructor
    · show mapLookup (Cache.modify_item c k (states_remove t)).1 k = _
      simp [Cache.modify_item, hitem, mapLookup_mapUpdate_self, states_remove]
    · show mapLookup (Cache.modify_item c k (states_insert t)).1 k = _
      simp [Cache.modify_item, hitem, mapLookup_mapUpdate_self, states_insert]
  · intro active
    cases active <;>
      · show ((Cache.modify_item c k _).2 = false ↔ _)
        unfold Cache.modify_item
        cases hl : mapLookup c k <;> simp

/-- Closed witness for C4: toggling tag 10 on the cached item "ab"
(states `{10}`) removes it under `enabled = true` and re-inserts it under
`enabled = false`; on the absent key the updater returns false. -/
theorem C4_update_state_polarity_witness :
    mapLookup (update_state cacheA keyA 10 true).1 keyA =
      some { itemA with states := itemA.states.erase 10 } ∧
    mapLookup (update_state cacheA keyA 10 false).1 keyA =
      some { itemA with states := insert 10 itemA.states } ∧
    ((update_state cacheA keyB 10 true).2 = false ↔ mapLookup cacheA keyB = none) :=
  ⟨((C4_update_state_polarity cacheA keyA 10).1 itemA (by decide)).1,
    ((C4_update_state_polarity cacheA keyA 10).1 itemA (by decide)).2,
    (C4_update_state_polarity cacheA keyB 10).2 true⟩

/-- C5 (code-bug evidence): on an atomic insert event into the cached text
"ab" (insert "X" at position 0), the string handed to the speaker is the
PRE-edit cached text "ab", while the post-edit text of the item is "Xab" —
the code computes the announcement from `current_text` before the cache is
updated, contradicting `speak_insertion`'s own comment that the text
should be updated first. -/
theorem C5_atomic_insert_speaks_pre_edit_text :
    ((insert_or_delete cacheA keyA attrsAtomic true 0 1
        (String.toList "X")).2).map Prod.snd = some (String.toList "ab") ∧
    mapLookup (insert_or_delete cacheA keyA attrsAtomic true 0 1
        (String.toList "X")).1 keyA = some { itemA with text := String.toList "Xab" } ∧
    String.toList "ab" ≠ String.toList "Xab" := by
  refine ⟨by decide, by decide, by decide⟩

/-- C6 (code-bug evidence): on a same-object caret move across three
characters of the §8 paragraph, `new_position` returns the empty string in
both argument orders (it only announces when the positions are adjacent),
while the claim — and the repository's own
`test_text_navigation_one_word` — expect "The". -/
theorem C6_caret_span_three_returns_empty :
    new_position a11yParagraphItem a11yParagraphItem 3 0 a11yParagraphText = some [] ∧
    new_position a11yParagraphItem a11yParagraphItem 0 3 a11yParagraphText = some [] ∧
    (some [] : Option (List Char)) ≠ some (String.toList "The") := by
  refine ⟨by decide, by decide, by decide⟩

/-- C7: `modify_item` on an absent identity returns false with the cache
untouched — the result does not depend on the mutator, which is never
invoked — and after `remove id` the same holds for that identity. -/
theorem C7_modify_item_absent (c : Cache) (k : AccessiblePrimitive)
    (f : CacheItem → CacheItem) (h : mapLookup c k = none) :
    Cache.modify_item c k f = (c, false) ∧
    (∀ g : CacheItem → CacheItem,
      Cache.modify_item (Cache.remove c k) k g = (Cache.remove c k, false)) := by
  constructor
  · simp [Cache.modify_item, h]
  · intro g
    simp [Cache.modify_item, Cache.remove, mapLookup_mapRemove_self]

/-- Closed witness for C7 on the one-entry cache: `keyB` is absent, and
after removing `keyA` a modify on `keyA` also fails. -/
theorem C7_modify_item_absent_witness :
    Cache.modify_item cacheA keyB (states_remove 10) = (cacheA, false) ∧
    Cache.modify_item (Cache.remove cacheA keyB) keyB (states_remove 10) =
      (Cache.remove cacheA keyB, false) :=
  ⟨(C7_modify_item_absent cacheA keyB (states_remove 10) (by decide)).1,
    (C7_modify_item_absent cacheA keyB (states_remove 10) (by decide)).2
      (states_remove 10)⟩

/-- C8 (counterexample): invariant I2 fails for a mutator `modify_item`
may be given — starting from the empty cache, adding the item keyed
`keyA` and then modifying it with the object-rewriting mutator leaves a
stored item whose `object` field (`keyB`) differs from its map key. -/
theorem C8_counterexample_object_rewritten :
    ¬ keyMatchesObject
        (applyOps [CacheOp.add itemA, CacheOp.modify keyA objectRewriter]) := by
  intro h
  have hmem : (keyA, objectRewriter itemA) ∈
      applyOps [CacheOp.add itemA, CacheOp.modify keyA objectRewriter] := by
    simp [applyOps, applyOp, Cache.add, Cache.modify_item, mapInsert, mapUpdate,
      mapLookup, itemA]
  have hobj := h (keyA, objectRewriter itemA) hmem
  simp only [objectRewriter] at hobj
  exact absurd hobj (by decide)

/-- C8 (amended): after any finite operation sequence from the empty
cache, the map holds at most one item per identity (I1) for every mutator;
and every stored item's `object` equals its map key (I2) provided every
mutator handed to `modify_item` preserves the `object` field — which a
mutator is free to violate, so I2 does not hold for every mutator. -/
theorem C8_invariants (ops : List CacheOp) :
    uniqueKeys (applyOps ops) ∧
    ((∀ op ∈ ops, opPreservesObject op) → keyMatchesObject (applyOps ops)) := by
  have h := applyOps_invariants ops [] (by simp [uniqueKeys])
  exact ⟨h.1, fun hops => h.2 (by intro p hp; simp at hp) hops⟩

/-- Closed witness for C8 on a two-operation sequence whose mutator (the
state remover) preserves the `object` field. -/
theorem C8_invariants_witness :
    uniqueKeys (applyOps [CacheOp.add itemA, CacheOp.modify keyA (states_remove 10)]) ∧
    keyMatchesObject
      (applyOps [CacheOp.add itemA, CacheOp.modify keyA (states_remove 10)]) :=
  ⟨(C8_invariants [CacheOp.add itemA, CacheOp.modify keyA (states_remove 10)]).1,
    (C8_invariants [CacheOp.add itemA, CacheOp.modify keyA (states_remove 10)]).2
      (by
        intro op hop
        rcases List.mem_cons.mp hop with h | h
        · subst h; trivial
        · rcases List.mem_cons.mp h with h' | h'
          · subst h'; intro item; rfl
          · cases h')⟩

/-- C9: `get` on an absent identity returns `none`; on a present identity
it returns a detached copy of the stored item (field-for-field equal), and
mutating the returned copy leaves the cache — in particular the stored
item — unchanged. -/
theorem C9_get_returns_detached_copy (c : Cache) (k : AccessiblePrimitive)
    (f : CacheItem → CacheItem) :
    (get_then_mutate c k f).1 = c ∧
    (∀ item, mapLookup c k = some item →
      Cache.get c k = some (copy_into_cache_item item) ∧
      copy_into_cache_item item = item ∧
      (get_then_mutate c k f).2 = some (f item) ∧
      mapLookup (get_then_mutate c k f).1 k = some item) ∧
    (mapLookup c k = none → (get_then_mutate c k f).2 = none) := by
  refine ⟨?_, ?_, ?_⟩
  · unfold get_then_mutate Cache.get
    cases mapLookup c k <;> rfl
  · intro item hitem
    refine ⟨by simp [Cache.get, hitem, copy_into_cache_item], rfl, ?_, ?_⟩
    · simp [get_then_mutate, Cache.get, hitem]
    · simp [get_then_mutate, Cache.get, hitem]
  · intro hnone
    simp [get_then_mutate, Cache.get, hnone]

/-- Closed witness for C9: on the one-entry cache, getting `keyA` and
blanking the copy's text leaves the stored item intact, and `keyB` is
reported absent. -/
theorem C9_get_returns_detached_copy_witness :
    (get_then_mutate cacheA keyA (fun it => { it with text := [] })).1 = cacheA ∧
    (get_then_mutate cacheA keyA (fun it => { it with text := [] })).2 =
      some { itemA with text := [] } ∧
    mapLookup (get_then_mutate cacheA keyA (fun it => { it with text := [] })).1 keyA =
      some itemA ∧
    (get_then_mutate cacheA keyB (fun it => { it with text := [] })).2 = none :=
  ⟨(C9_get_returns_detached_copy cacheA keyA (fun it => { it with text := [] })).1,
    (((C9_get_returns_detached_copy cacheA keyA
        (fun it => { it with text := [] })).2.1 itemA (by decide)).2.2.1),
    (((C9_get_returns_detached_copy cacheA keyA
        (fun it => { it with text := [] })).2.1 itemA (by decide)).2.2.2),
    ((C9_get_returns_detached_copy cacheA keyB
        (fun it => { it with text := [] })).2.2 (by decide))⟩

/-- C10: each applier mutates only its designated field — the insert and
delete text mutators change at most `text`, the state mutators change at
most `states` — and `modify_item` (hence the state and text appliers built
on it) leaves every other cache entry unchanged. -/
theorem C10_appliers_frame (start_pos update_length : Nat) (updated_text : List Char)
    (t : Nat) (c : Cache) (k k' : AccessiblePrimitive) (f : CacheItem → CacheItem)
    (attributes : Attributes) (active ins : Bool) (h : k' ≠ k) :
    onlyTextDiffers (update_string_insert start_pos update_length updated_text) ∧
    onlyTextDiffers (update_string_delete start_pos update_length) ∧
    onlyStatesDiffers (states_remove t) ∧
    onlyStatesDiffers (states_insert t) ∧
    mapLookup (Cache.modify_item c k f).1 k' = mapLookup c k' ∧
    mapLookup (update_state c k t active).1 k' = mapLookup c k' ∧
    mapLookup (insert_or_delete c k attributes ins start_pos update_length
        updated_text).1 k' = mapLookup c k' := by
  refine ⟨fun item => ?_, fun item => ?_, fun item => ?_, fun item => ?_, ?_, ?_, ?_⟩
  · exact ⟨rfl, rfl, rfl, rfl, rfl, rfl, rfl, rfl, rfl, rfl⟩
  · exact ⟨rfl, rfl, rfl, rfl, rfl, rfl, rfl, rfl, rfl, rfl⟩
  · exact ⟨rfl, rfl, rfl, rfl, rfl, rfl, rfl, rfl, rfl, rfl⟩
  · exact ⟨rfl, rfl, rfl, rfl, rfl, rfl, rfl, rfl, rfl, rfl⟩
  · exact modify_item_preserves_other_keys c k k' f h
  · unfold update_state
    cases active <;> simp <;> exact modify_item_preserves_other_keys c k k' _ h
  · unfold insert_or_delete
    cases hl : Cache.get c k with
    | none => rfl
    | some item =>
      simp only
      by_cases hb : (ins && !(text_selection_from_cache item.text start_pos
          update_length == updated_text)) = true
      · simp only [hb, if_pos]
        exact modify_item_preserves_other_keys c k k' _ h
      · simp only [hb, if_neg, Bool.not_eq_true]
        by_cases hb2 : (!ins && (text_selection_from_cache item.text start_pos
            update_length == updated_text)) = true
        · simp only [hb2, if_pos]
          exact modify_item_preserves_other_keys c k k' _ h
        · simp only [hb2, if_neg, Bool.not_eq_true]

/-- Closed witness for C10 at concrete arguments: the state remover leaves
the other entry's lookup unchanged, the text insert mutator leaves the
states of "ab" unchanged. -/
theorem C10_appliers_frame_witness :
    onlyTextDiffers (update_string_insert 0 1 (String.toList "X")) ∧
    mapLookup (update_state cacheA keyA 10 true).1 keyB = mapLookup cacheA keyB ∧
    mapLookup (insert_or_delete cacheA keyA attrsAtomic true 0 1
        (String.toList "X")).1 keyB = mapLookup cacheA keyB :=
  have h := C10_appliers_frame 0 1 (String.toList "X") 10 cacheA keyA keyB
    (states_remove 10) attrsAtomic true true (by decide)
  ⟨h.1, h.2.2.2.2.2.1, h.2.2.2.2.2.2⟩

end Odilia
